import Mathlib

/-!
Shallow embedding of the tabular data-preparation pipeline `data_prep`
from `src/activities/solutions/week_2.py`, together with theorems that
settle the specification claims about it.

A dataframe is modelled as a header (the column order) plus a list of
rows, where each row is a list of (column-name, cell) pairs; a table read
from a CSV file satisfies `Table.WF`: every row's name sequence equals
the header.  Cells are untyped values: missing (`na`, pandas NaN/NaT/NA),
strings, integers (pandas int64 / nullable Int64), or dates (a day
number, pandas datetime64 at midnight).  Fallible pandas operations are
embedded in `Except PrepError`; a raised exception is an `error` value,
and the terminal `to_csv` write happens only on the `ok` path, so "no
output file is written" is modelled by the pipeline returning `error`.
-/

/-- One cell of a dataframe: missing, string, integer, or date
(a proleptic-Gregorian day number, so date subtraction is integer
subtraction). -/
inductive Cell where
  | na : Cell
  | str : String → Cell
  | int : Int → Cell
  | date : Int → Cell
  deriving Repr, DecidableEq

/-- One row: the cells in column order, each tagged with its column name. -/
abbrev Row := List (String × Cell)

/-- A dataframe: column order plus rows. -/
structure Table where
  header : List String
  rows : List Row
  deriving Repr, DecidableEq

/-- Well-formedness of a table as produced by a CSV read: every row has
exactly the header's columns, in the header's order. -/
def Table.WF (t : Table) : Prop :=
  ∀ r ∈ t.rows, r.map Prod.fst = t.header

instance (t : Table) : Decidable t.WF := by
  unfold Table.WF
  infer_instance

/-- The exceptions the pipeline can raise: pandas KeyError (missing
column or row label), ValueError (failed integer cast, or duplicate
column on insert), and the to_datetime parse failure. -/
inductive PrepError where
  | keyError : String → PrepError
  | valueError : String → PrepError
  | dateError : String → PrepError
  deriving Repr, DecidableEq

/-- Gregorian leap-year test. -/
def isLeapYear (y : Nat) : Bool :=
  y % 4 = 0 && (y % 100 ≠ 0 || y % 400 = 0)

/-- Days in a month of the Gregorian calendar. -/
def daysInMonth (y m : Nat) : Nat :=
  if m = 2 then (if isLeapYear y then 29 else 28)
  else if m = 4 ∨ m = 6 ∨ m = 9 ∨ m = 11 then 30
  else 31

/-- Day number of a proleptic-Gregorian civil date (days since
1970-01-01, negative before). -/
def daysFromCivil (y m d : Nat) : Int :=
  let yy := if m ≤ 2 then y - 1 else y
  let era := yy / 400
  let yoe := yy % 400
  let mp := (m + 9) % 12
  let doy := (153 * mp + 2) / 5 + d - 1
  let doe := yoe * 365 + yoe / 4 - yoe / 100 + doy
  (era : Int) * 146097 + (doe : Int) - 719468

/-- Leading whitespace removal on a character list (Python strips
space, tab, newline, carriage return; the data contains only these). -/
def dropSpaces : List Char → List Char
  | [] => []
  | c :: cs => if c.isWhitespace then dropSpaces cs else c :: cs

/-- Both-sided whitespace trim, as Python str.strip(). -/
def trimChars (l : List Char) : List Char :=
  (dropSpaces (dropSpaces l.reverse).reverse)

/-- Python str.strip() on a string. -/
def stripStr (s : String) : String := String.mk (trimChars s.data)

/-- ASCII lowercase of one character, as Python str.lower() acts on the
ASCII data in this table. -/
def toLowerChar (c : Char) : Char :=
  if c.toNat ≥ 65 ∧ c.toNat ≤ 90 then Char.ofNat (c.toNat + 32) else c

/-- Python str.lower() on a string. -/
def lowerStr (s : String) : String := String.mk (s.data.map toLowerChar)

/-- The numeric value of a digit list (none when empty or any character
is not an ASCII digit). -/
def digitsToNat : List Char → Option Nat
  | [] => none
  | l => go l 0
where
  go : List Char → Nat → Option Nat
    | [], acc => some acc
    | c :: cs, acc =>
      if c.isDigit then go cs (acc * 10 + (c.toNat - 48)) else none

/-- Python int(s) on a string: surrounding whitespace stripped, an
optional sign, then decimal digits; none when it would raise. -/
def pyInt? (s : String) : Option Int :=
  match trimChars s.data with
  | '-' :: rest => (digitsToNat rest).map (fun n => -(n : Int))
  | '+' :: rest => (digitsToNat rest).map (fun n => (n : Int))
  | l => (digitsToNat l).map (fun n => (n : Int))

/-- Split a character list at every slash. -/
def splitSlash : List Char → List (List Char)
  | [] => [[]]
  | c :: cs =>
    let r := splitSlash cs
    if c = '/' then [] :: r
    else
      match r with
      | h :: t => (c :: h) :: t
      | [] => [[c]]

/-- Strict parse of a date string in the format used by
`pd.to_datetime(..., format=%d/%m/%Y)`: day and month as 1-2 digits,
year as exactly 4 digits, separated by slashes, and a valid calendar
date (Python datetime requires year at least 1). -/
def parseDateDMY (s : String) : Option Int := do
  match splitSlash s.data with
  | [ds, ms, ys] =>
    let d ← digitsToNat ds
    let m ← digitsToNat ms
    let y ← digitsToNat ys
    guard (1 ≤ ds.length ∧ ds.length ≤ 2 ∧ 1 ≤ ms.length ∧ ms.length ≤ 2 ∧ ys.length = 4)
    guard (1 ≤ y ∧ 1 ≤ m ∧ m ≤ 12 ∧ 1 ≤ d ∧ d ≤ daysInMonth y m)
    pure (daysFromCivil y m d)
  | _ => none

/-- The cell a row holds in a named column (first occurrence), `na` when
the column is absent — the value `df.loc[row, col]` reads. -/
def cellByName (r : Row) (c : String) : Cell :=
  match r.find? (fun p => p.1 == c) with
  | some p => p.2
  | none => Cell.na

/-- Line 50-51: the masked assignment
`df.loc[df.type == Summer, type] = ....str.lower()` acts per cell as:
lowercase exactly the cells equal to the full string Summer. -/
def lowerSummerCell : Cell → Cell
  | Cell.str s => if s = "Summer" then Cell.str (lowerStr s) else Cell.str s
  | c => c

/-- Line 52: `.str.strip()` per cell: trim strings, keep missing, and
turn non-string values into missing (the pandas .str accessor yields NaN
on non-strings). -/
def stripCell : Cell → Cell
  | Cell.str s => Cell.str (stripStr s)
  | _ => Cell.na

/-- Line 55: `.astype(Int64)` per cell: missing stays missing, integers
stay, a string must parse as an integer (Python int(), which strips
surrounding whitespace) or the cast raises ValueError. -/
def castInt64Cell : Cell → Except PrepError Cell
  | Cell.na => Except.ok Cell.na
  | Cell.int n => Except.ok (Cell.int n)
  | Cell.str s =>
    match pyInt? s with
    | some n => Except.ok (Cell.int n)
    | none => Except.error (PrepError.valueError s)
  | Cell.date _ => Except.error (PrepError.valueError "cannot cast date to Int64")

/-- Lines 56-57: `pd.to_datetime(..., format=%d/%m/%Y)` per cell:
missing becomes NaT (still missing), a string must parse in the given
format or the call raises, a date stays a date. -/
def toDatetimeCell : Cell → Except PrepError Cell
  | Cell.na => Except.ok Cell.na
  | Cell.str s =>
    match parseDateDMY s with
    | some d => Except.ok (Cell.date d)
    | none => Except.error (PrepError.dateError s)
  | Cell.int _ => Except.error (PrepError.dateError "non-string value")
  | Cell.date d => Except.ok (Cell.date d)

/-- Lines 58-59: `.astype(string)` per cell: render non-strings as text,
keep missing. -/
def astypeStringCell : Cell → Cell
  | Cell.na => Cell.na
  | Cell.str s => Cell.str s
  | Cell.int n => Cell.str (toString n)
  | Cell.date d => Cell.str (toString d)

/-- Line 61: one entry of `(df.end - df.start).dt.days.astype(Int64)`:
a whole-day difference when both dates are present, missing when either
is NaT. -/
def durationCell : Cell → Cell → Except PrepError Cell
  | Cell.date a, Cell.date b => Except.ok (Cell.int (b - a))
  | Cell.na, _ => Except.ok Cell.na
  | _, Cell.na => Except.ok Cell.na
  | _, _ => Except.error (PrepError.valueError "unsupported operand for subtraction")

/-- Line 66-72: the five-entry alias table `replacement_names`. -/
def replacement_names : List (String × String) :=
  [("UK", "Great Britain"),
   ("USA", "United States of America"),
   ("Korea", "Republic of Korea"),
   ("Russia", "Russian Federation"),
   ("China", "People\x27s Republic of China")]

/-- Line 73: `Series.replace(dict)` per cell: a string equal to a key of
the dict becomes the mapped value, everything else is unchanged. -/
def replaceCell (m : List (String × String)) : Cell → Cell
  | Cell.str s =>
    match m.find? (fun p => p.1 == s) with
    | some p => Cell.str p.2
    | none => Cell.str s
  | c => c

/-- `df.drop(columns=cols)`: raises KeyError naming a missing column,
otherwise removes the named columns from the header and from every row. -/
def dropColumns (cols : List String) (t : Table) : Except PrepError Table :=
  match cols.find? (fun c => !(t.header.contains c)) with
  | some c => Except.error (PrepError.keyError c)
  | none =>
    Except.ok
      { header := t.header.filter (fun h => !(cols.contains h)),
        rows := t.rows.map (fun r => r.filter (fun p => !(cols.contains p.1))) }

/-- Line 49: `df.drop(index=[0, 17, 31])`.  The table was just read from
CSV, so its index is the positional range 0..n-1: the labels 0, 17, 31
all exist exactly when the table has at least 32 rows (otherwise pandas
raises KeyError), and dropping them removes the rows at those three
positions. -/
def dropRowsFixed (t : Table) : Except PrepError Table :=
  if 31 < t.rows.length then
    Except.ok { t with rows := ((t.rows.eraseIdx 31).eraseIdx 17).eraseIdx 0 }
  else Except.error (PrepError.keyError "[0, 17, 31] not found in axis")

/-- KeyError check for a single-column access `df[c]`. -/
def requireCol (t : Table) (c : String) : Except PrepError Unit :=
  if t.header.contains c then Except.ok () else Except.error (PrepError.keyError c)

/-- The per-pair update applied by a column-wise assignment: transform
the cell when the pair belongs to column `c`. -/
def updPair (c : String) (f : Cell → Cell) (p : String × Cell) : String × Cell :=
  if p.1 = c then (p.1, f p.2) else p

/-- Infallible column-wise assignment `df[c] = f(df[c])`: KeyError when
the column is absent, otherwise apply `f` to that column's cell in every
row. -/
def mapCol (c : String) (f : Cell → Cell) (t : Table) : Except PrepError Table := do
  let _ ← requireCol t c
  pure { t with rows := t.rows.map (fun r => r.map (updPair c f)) }

/-- Structural effectful map in the Except monad (the element-wise
traversal pandas performs, failing at the first raising element). -/
def mapME {a : Type} {b : Type} (f : a -> Except PrepError b) : List a -> Except PrepError (List b)
  | [] => Except.ok []
  | x :: xs => do
    let y ← f x
    let ys ← mapME f xs
    pure (y :: ys)

/-- The monadic per-pair update of a fallible column-wise assignment. -/
def updPairM (c : String) (f : Cell → Except PrepError Cell) (p : String × Cell) :
    Except PrepError (String × Cell) :=
  if p.1 = c then (f p.2).map (fun v => (p.1, v)) else Except.ok p

/-- Fallible column-wise assignment `df[c] = f(df[c])` where `f` may
raise (integer cast, date parse): KeyError when the column is absent,
and the first failing cell's exception propagates. -/
def mapColM (c : String) (f : Cell → Except PrepError Cell) (t : Table) :
    Except PrepError Table := do
  let _ ← requireCol t c
  let rows ← mapME (fun r => mapME (updPairM c f) r) t.rows
  pure { t with rows := rows }

/-- Line 54: the columns cast to nullable integers. -/
def columns_to_change : List String :=
  ["countries", "events", "participants_m", "participants_f", "participants"]

/-- Line 55: `df[cols] = df[cols].astype(Int64)`: KeyError if any listed
column is absent, then cast every cell of those columns. -/
def castIntCols (cols : List String) (t : Table) : Except PrepError Table :=
  match cols.find? (fun c => !(t.header.contains c)) with
  | some c => Except.error (PrepError.keyError c)
  | none => cols.foldlM (fun acc c => mapColM c castInt64Cell acc) t

/-- Lines 58-59: `df[[type, country, host]] = ....astype(string)`. -/
def astypeStrCols (cols : List String) (t : Table) : Except PrepError Table :=
  match cols.find? (fun c => !(t.header.contains c)) with
  | some c => Except.error (PrepError.keyError c)
  | none => cols.foldlM (fun acc c => mapCol c astypeStringCell acc) t

/-- `df.columns.get_loc(c)`: the position of a column, KeyError when
absent. -/
def getLoc (t : Table) (c : String) : Except PrepError Nat :=
  match List.findIdx? (fun h => h == c) t.header with
  | some j => Except.ok j
  | none => Except.error (PrepError.keyError c)

/-- Lines 61-62: compute the duration series from the start and end
columns (KeyError if either is absent), then
`df.insert(df.columns.get_loc(end) + 1, duration, values)`, which
raises ValueError if a duration column already exists. -/
def insertDuration (t : Table) : Except PrepError Table := do
  let _ ← requireCol t "start"
  let _ ← requireCol t "end"
  let vals ← mapME (fun r => durationCell (cellByName r "start") (cellByName r "end")) t.rows
  let j ← getLoc t "end"
  if t.header.contains "duration" then
    Except.error (PrepError.valueError "cannot insert duration, already exists")
  else
    pure { header := t.header.insertIdx (j + 1) "duration",
           rows := (t.rows.zip vals).map (fun p => p.1.insertIdx (j + 1) ("duration", p.2)) }

/-- One row of the reference lookup table `npc_codes.csv`, restricted to
the two columns the pipeline reads (`usecols=[Code, Name]`). -/
structure NpcEntry where
  code : String
  name : String
  deriving Repr, DecidableEq

/-- Line 74: `df.merge(npc_df, how=left, left_on=country, right_on=Name)`:
for each left row, append the Code and Name cells of every reference row
whose Name equals the row's country (one output row per match, preserving
left order), or null Code and Name cells when there is no match — no left
row is ever dropped. -/
def mergeNpc (npc : List NpcEntry) (t : Table) : Except PrepError Table := do
  let _ ← requireCol t "country"
  pure { header := t.header ++ ["Code", "Name"],
         rows := t.rows.flatMap (fun r =>
           let ms := npc.filter (fun e => cellByName r "country" == Cell.str e.name)
           if ms.isEmpty then [r ++ [("Code", Cell.na), ("Name", Cell.na)]]
           else ms.map (fun e => r ++ [("Code", Cell.str e.code), ("Name", Cell.str e.name)])) }

/-- Line 47: the three columns dropped first. -/
def dropped_columns : List String := ["URL", "disabilities_included", "highlights"]

/-- Line 58: the columns declared text-typed. -/
def object_columns : List String := ["type", "country", "host"]

/-- The transformation steps of `data_prep`, line 47 to line 75, as
explicit syntax (used to state ordering claims about the pipeline). -/
inductive Step where
  | dropCols : List String → Step
  | dropRows0_17_31 : Step
  | lowerSummer : Step
  | stripType : Step
  | castInts : List String → Step
  | parseDate : String → Step
  | astypeStr : List String → Step
  | insertDur : Step
  | replaceCountry : Step
  | mergeCodes : Step
  deriving Repr, DecidableEq

/-- The meaning of one step as a table transformation. -/
def applyStep (npc : List NpcEntry) : Step → Table → Except PrepError Table
  | Step.dropCols cols => dropColumns cols
  | Step.dropRows0_17_31 => dropRowsFixed
  | Step.lowerSummer => mapCol "type" lowerSummerCell
  | Step.stripType => mapCol "type" stripCell
  | Step.castInts cols => castIntCols cols
  | Step.parseDate c => mapColM c toDatetimeCell
  | Step.astypeStr cols => astypeStrCols cols
  | Step.insertDur => insertDuration
  | Step.replaceCountry => mapCol "country" (replaceCell replacement_names)
  | Step.mergeCodes => mergeNpc npc

/-- The steps of `data_prep` in source order (lines 47-75). -/
def dataPrepSteps : List Step :=
  [Step.dropCols dropped_columns,
   Step.dropRows0_17_31,
   Step.lowerSummer,
   Step.stripType,
   Step.castInts columns_to_change,
   Step.parseDate "start",
   Step.parseDate "end",
   Step.astypeStr object_columns,
   Step.insertDur,
   Step.replaceCountry,
   Step.mergeCodes,
   Step.dropCols ["Name"]]

/-- `data_prep(df)` (lines 46-78), with the reference table `npc_df`
passed explicitly (in the source it is read from `npc_codes.csv`, which
fixes it per run): the source-ordered sequence of transformations,
raising the first failure; the terminal `to_csv` write and the return
value are both the final table, so an `error` result means no output
file is written. -/
def data_prep (npc : List NpcEntry) (df : Table) : Except PrepError Table := do
  let t1 ← dropColumns dropped_columns df
  let t2 ← dropRowsFixed t1
  let t3 ← mapCol "type" lowerSummerCell t2
  let t4 ← mapCol "type" stripCell t3
  let t5 ← castIntCols columns_to_change t4
  let t6 ← mapColM "start" toDatetimeCell t5
  let t7 ← mapColM "end" toDatetimeCell t6
  let t8 ← astypeStrCols object_columns t7
  let t9 ← insertDuration t8
  let t10 ← mapCol "country" (replaceCell replacement_names) t9
  let t11 ← mergeNpc npc t10
  dropColumns ["Name"] t11

/-- The cell at (row position, column name) of the prepared table, when
the pipeline succeeds. -/
def prepCell (npc : List NpcEntry) (t : Table) (i : Nat) (c : String) : Option Cell :=
  match data_prep npc t with
  | Except.ok t' => (t'.rows.get? i).map (fun r => cellByName r c)
  | Except.error _ => none

/-- The number of rows of the prepared table, when the pipeline
succeeds. -/
def prepRowCount (npc : List NpcEntry) (t : Table) : Option Nat :=
  match data_prep npc t with
  | Except.ok t' => some t'.rows.length
  | Except.error _ => none

/-- The column layout of the raw paralympics table (the columns
`data_prep` touches, in the raw file's order). -/
def baseHeader : List String :=
  ["type", "country", "host", "start", "end", "countries", "events",
   "participants_m", "participants_f", "participants",
   "URL", "disabilities_included", "highlights"]

/-- A raw row over `baseHeader` with the given type, country, host,
start, end and participants_m cells. -/
def mkRow (ty co ho st en : String) (pm : Cell) : Row :=
  [("type", Cell.str ty), ("country", Cell.str co), ("host", Cell.str ho),
   ("start", Cell.str st), ("end", Cell.str en),
   ("countries", Cell.int 10), ("events", Cell.int 5),
   ("participants_m", pm), ("participants_f", Cell.int 50),
   ("participants", Cell.int 150),
   ("URL", Cell.str "u"), ("disabilities_included", Cell.str "d"),
   ("highlights", Cell.str "h")]

/-- A fully parseable filler row. -/
def fillerRow : Row := mkRow "Winter" "Italy" "Turin" "10/03/2006" "19/03/2006" (Cell.int 474)

/-- A small concrete reference table (distinct names, as in
`npc_codes.csv`). -/
def npcTest : List NpcEntry :=
  [⟨"RUS", "Russian Federation"⟩, ⟨"GBR", "Great Britain"⟩, ⟨"ITA", "Italy"⟩]

/-- A 32-row raw table whose surviving second row has the unparseable
participants_m cell "abc". -/
def tblBadInt : Table :=
  ⟨baseHeader,
   fillerRow :: mkRow "Winter" "Italy" "Turin" "10/03/2006" "19/03/2006" (Cell.str "abc")
     :: List.replicate 30 fillerRow⟩

/-- The exception the pipeline raises, when it fails. -/
def prepResult (npc : List NpcEntry) (t : Table) : Option PrepError :=
  match data_prep npc t with
  | Except.ok _ => none
  | Except.error e => some e

/-- A 32-row raw table whose surviving second row is the spec's scenario
row: type "Summer " (trailing space), country Russia, start 01/07/2008,
end 15/07/2008, participants_m given as the text "100". -/
def tblScenario : Table :=
  ⟨baseHeader,
   fillerRow :: mkRow "Summer " "Russia" "Beijing" "01/07/2008" "15/07/2008" (Cell.str "100")
     :: List.replicate 30 fillerRow⟩

/-- A 32-row raw table whose surviving second row has its end date
before its start date. -/
def tblEndBeforeStart : Table :=
  ⟨baseHeader,
   fillerRow :: mkRow "Winter" "Italy" "Turin" "02/07/2008" "01/07/2008" (Cell.int 1)
     :: List.replicate 30 fillerRow⟩

/-- A 33-row raw table whose surviving second row has country "UK" and
surviving third row a country absent from the reference table. -/
def tblUK : Table :=
  ⟨baseHeader,
   fillerRow :: mkRow "Winter" "UK" "London" "01/03/2010" "10/03/2010" (Cell.int 20)
     :: mkRow "Winter" "Atlantis" "Atlantis" "01/03/2010" "10/03/2010" (Cell.int 20)
     :: List.replicate 30 fillerRow⟩

/-- A fully parseable 32-row raw table. -/
def tblAllGood : Table := ⟨baseHeader, List.replicate 32 fillerRow⟩

/-- A raw table with only 5 rows. -/
def tblShort : Table := ⟨baseHeader, List.replicate 5 fillerRow⟩

/-- Does a step drop columns? -/
def Step.isColumnDrop : Step → Bool
  | Step.dropCols _ => true
  | _ => false

/-- Is a step the positional row removal? -/
def Step.isRowRemoval : Step → Bool
  | Step.dropRows0_17_31 => true
  | _ => false

/-- A one-row, one-column table used to witness the join-retention
theorem. -/
def tblTiny : Table := ⟨["country"], [[("country", Cell.str "Atlantis")]]⟩

/-- The relation between the start cell, end cell and duration cell of
a prepared row. -/
def durRel (s e v : Cell) : Prop :=
  (∀ a b, s = Cell.date a → e = Cell.date b → v = Cell.int (b - a)) ∧
  (s = Cell.na → v = Cell.na) ∧ (e = Cell.na → v = Cell.na)

/-- The prepared counterpart of the filler row, in the prepared column
order. -/
def preparedFillerRow : Row :=
  [("type", Cell.str "Winter"), ("country", Cell.str "Italy"), ("host", Cell.str "Turin"),
   ("start", Cell.date (daysFromCivil 2006 3 10)), ("end", Cell.date (daysFromCivil 2006 3 19)),
   ("duration", Cell.int 9),
   ("countries", Cell.int 10), ("events", Cell.int 5), ("participants_m", Cell.int 474),
   ("participants_f", Cell.int 50), ("participants", Cell.int 150), ("Code", Cell.str "ITA")]

/-- The prepared column order for the base layout. -/
def preparedHeader : List String :=
  ["type", "country", "host", "start", "end", "duration", "countries", "events",
   "participants_m", "participants_f", "participants", "Code"]

/-- The prepared table of the fully parseable 32-row raw table. -/
def tblAllGoodPrepared : Table := ⟨preparedHeader, List.replicate 29 preparedFillerRow⟩

/-- The local frame of a `data_prep(df)` call: the caller's argument
object `df` and the local binding `df_prepared`.  Line 47 reads `df`
once through `df.drop(columns=...)`, which returns a new DataFrame (a
copy, not a view), and binds `df_prepared` to it; every later line
operates on `df_prepared` only. -/
structure CallFrame where
  df : Table
  df_prepared : Table
  deriving Repr, DecidableEq

/-- A pandas call that returns a fresh object, whose result is
reassigned to the local binding (lines 49, 74, 75): the frame's
`df_prepared` is rebound, `df` is untouched. -/
def rebind (f : Table → Except PrepError Table) (fr : CallFrame) :
    Except PrepError CallFrame :=
  (f fr.df_prepared).map (fun t => { fr with df_prepared := t })

/-- A pandas operation that mutates its receiver in place (the `.loc`
masked assignment of line 51, the column setitem assignments of lines
52, 55-59 and 73, the `insert` of line 62): the receiver is the object
`df_prepared` refers to, which since line 47 is a different object from
the caller's `df`, so only the frame's `df_prepared` changes. -/
def inplace (f : Table → Except PrepError Table) (fr : CallFrame) :
    Except PrepError CallFrame :=
  (f fr.df_prepared).map (fun t => { fr with df_prepared := t })

/-- `data_prep` at the level of its call frame (lines 46-78): line 47
creates the frame, each later line rebinds or mutates `df_prepared`,
and no line assigns to or mutates the caller's object `df`. -/
def data_prep_frame (npc : List NpcEntry) (df : Table) : Except PrepError CallFrame := do
  let t1 ← dropColumns dropped_columns df
  let fr2 ← rebind dropRowsFixed { df := df, df_prepared := t1 }
  let fr3 ← inplace (mapCol "type" lowerSummerCell) fr2
  let fr4 ← inplace (mapCol "type" stripCell) fr3
  let fr5 ← inplace (castIntCols columns_to_change) fr4
  let fr6 ← inplace (mapColM "start" toDatetimeCell) fr5
  let fr7 ← inplace (mapColM "end" toDatetimeCell) fr6
  let fr8 ← inplace (astypeStrCols object_columns) fr7
  let fr9 ← inplace insertDuration fr8
  let fr10 ← inplace (mapCol "country" (replaceCell replacement_names)) fr9
  let fr11 ← rebind (mergeNpc npc) fr10
  rebind (dropColumns ["Name"]) fr11

/-- C1, counterexample: on a valid 32-row table whose surviving second
row holds the unparseable participants_m value "abc", the pipeline does
not replace the cell with a missing marker and continue — it raises a
ValueError from the Int64 cast and aborts, so no output is written. -/
theorem C1_counterexample :
    prepResult npcTest tblBadInt = some (PrepError.valueError "abc") ∧
    prepCell npcTest tblBadInt 0 "participants_m" = none := by
  decide

/-- C1, amended: a cell of the numeric columns that cannot be parsed as
an integer makes the Int64 cast raise ValueError (aborting the
pipeline); a cell that is already missing becomes the missing marker,
and an integer cell is kept, without error. -/
theorem C1_amended_cast (s : String) (h : pyInt? s = none) :
    castInt64Cell (Cell.str s) = Except.error (PrepError.valueError s) ∧
    castInt64Cell Cell.na = Except.ok Cell.na ∧
    ∀ n : Int, castInt64Cell (Cell.int n) = Except.ok (Cell.int n) := by
  refine ⟨?_, rfl, fun n => rfl⟩
  simp [castInt64Cell, h]

/-- Witness for C1_amended_cast at the concrete unparseable string
"abc". -/
theorem C1_amended_cast_witness :
    castInt64Cell (Cell.str "abc") = Except.error (PrepError.valueError "abc") ∧
    castInt64Cell Cell.na = Except.ok Cell.na ∧
    ∀ n : Int, castInt64Cell (Cell.int n) = Except.ok (Cell.int n) :=
  C1_amended_cast "abc" (by decide)

/-- C2, counterexample: for the spec's scenario row, whose raw type is
"Summer " with a trailing space, the prepared type is "Summer", not
"summer": the lowercase mask (an exact comparison with "Summer") is
evaluated before the whitespace trim, so the cell is never lowercased. -/
theorem C2_counterexample :
    prepCell npcTest tblScenario 0 "type" = some (Cell.str "Summer") ∧
    some (Cell.str "Summer") ≠ some (Cell.str "summer") := by
  decide

/-- C2, amended: the scenario row prepares to type "Summer" (trimmed
but not lowercased), country "Russian Federation", start 2008-07-01,
end 2008-07-15, duration 14, participants_m 100, and Code equal to the
reference table's code for Russian Federation. -/
theorem C2_amended_scenario :
    prepCell npcTest tblScenario 0 "type" = some (Cell.str "Summer") ∧
    prepCell npcTest tblScenario 0 "country" = some (Cell.str "Russian Federation") ∧
    prepCell npcTest tblScenario 0 "start" = some (Cell.date (daysFromCivil 2008 7 1)) ∧
    prepCell npcTest tblScenario 0 "end" = some (Cell.date (daysFromCivil 2008 7 15)) ∧
    prepCell npcTest tblScenario 0 "duration" = some (Cell.int 14) ∧
    prepCell npcTest tblScenario 0 "participants_m" = some (Cell.int 100) ∧
    prepCell npcTest tblScenario 0 "Code" = some (Cell.str "RUS") := by
  decide

/-- C3: the type-normalization step (the masked lowercase of lines
50-51 followed by the strip of line 52) lowercases a type cell exactly
when its value is the literal string "Summer"; every other string value
is only trimmed, and a missing value stays missing. -/
theorem C3_type_normalization :
    stripCell (lowerSummerCell (Cell.str "Summer")) = Cell.str "summer" ∧
    (∀ s : String, s ≠ "Summer" → stripCell (lowerSummerCell (Cell.str s)) = Cell.str (stripStr s)) ∧
    stripCell (lowerSummerCell Cell.na) = Cell.na := by
  refine ⟨by decide, fun s hs => ?_, rfl⟩
  simp [lowerSummerCell, stripCell, hs]

/-- Witness for C3_type_normalization at the concrete non-Summer value
"Winter " (only trimmed). -/
theorem C3_type_normalization_witness :
    stripCell (lowerSummerCell (Cell.str "Winter ")) = Cell.str (stripStr "Winter ") :=
  C3_type_normalization.2.1 "Winter " (by decide)

/-- Bind of a success value in the Except monad (definitional). -/
theorem exceptOkBind {a : Type} {b : Type} (x : a) (f : a -> Except PrepError b) :
    (Except.ok x >>= f) = f x := rfl

/-- Bind of a raised exception in the Except monad (definitional). -/
theorem exceptErrorBind {a : Type} {b : Type} (e : PrepError) (f : a -> Except PrepError b) :
    ((Except.error e : Except PrepError a) >>= f) = Except.error e := rfl

/-- C6: on a raw table with the expected columns but fewer than 32
rows, the pipeline fails at the row-pruning step (the labels 0, 17, 31
are not all present) and returns that error, so no output file is
written. -/
theorem C6_short_table_aborts (npc : List NpcEntry) (t : Table)
    (hcols : ∀ c ∈ dropped_columns, t.header.contains c)
    (hrows : t.rows.length < 32) :
    data_prep npc t = Except.error (PrepError.keyError "[0, 17, 31] not found in axis") := by
  have hfind : List.find? (fun c => !(t.header.contains c)) dropped_columns = none := by
    rw [List.find?_eq_none]
    intro c hc
    simpa using hcols c hc
  have h1 : dropColumns dropped_columns t = Except.ok
      ⟨t.header.filter (fun h => !(dropped_columns.contains h)),
       t.rows.map (fun r => r.filter (fun p => !(dropped_columns.contains p.1)))⟩ := by
    simp only [dropColumns, hfind]
  have h2 : dropRowsFixed
      (⟨t.header.filter (fun h => !(dropped_columns.contains h)),
        t.rows.map (fun r => r.filter (fun p => !(dropped_columns.contains p.1)))⟩ : Table) =
      Except.error (PrepError.keyError "[0, 17, 31] not found in axis") := by
    simp only [dropRowsFixed]
    rw [if_neg]
    simp only [List.length_map]
    omega
  simp only [data_prep, h1, exceptOkBind, h2, exceptErrorBind]

/-- Witness for C6_short_table_aborts on the concrete 5-row table. -/
theorem C6_short_table_aborts_witness :
    data_prep npcTest tblShort =
      Except.error (PrepError.keyError "[0, 17, 31] not found in axis") :=
  C6_short_table_aborts npcTest tblShort (by decide) (by decide)

/-- Erasing a position commutes with mapping over the list. -/
theorem eraseIdxMap {a b : Type} (f : a -> b) :
    ∀ (l : List a) (i : Nat), (l.map f).eraseIdx i = (l.eraseIdx i).map f
  | [], _ => by simp
  | _ :: _, 0 => by simp
  | x :: l, i + 1 => by simp [eraseIdxMap f l i]

/-- C4, counterexample: in the source-ordered step list of `data_prep`,
a column drop is the first step (position 0) and the removal of rows
0, 17, 31 is only the second (position 1), so the row removal does not
happen before every column drop. -/
theorem C4_counterexample :
    List.findIdx Step.isColumnDrop dataPrepSteps = 0 ∧
    List.findIdx Step.isRowRemoval dataPrepSteps = 1 := by
  decide

/-- C4, amended: `data_prep` is exactly the fold of its source-ordered
step list, in which the positional row removal is the second step,
preceded only by the initial column prune; and that column prune
commutes with the row removal (it keeps every row's position), so every
subsequent positional or column operation still operates on the reduced
row set. -/
theorem C4_amended :
    (∀ (npc : List NpcEntry) (df : Table),
        data_prep npc df = dataPrepSteps.foldlM (fun t s => applyStep npc s t) df) ∧
    (List.findIdx Step.isColumnDrop dataPrepSteps = 0 ∧
     List.findIdx Step.isRowRemoval dataPrepSteps = 1) ∧
    ∀ (cols : List String) (t : Table),
      (∀ c ∈ cols, t.header.contains c) → 31 < t.rows.length →
      (dropColumns cols t >>= dropRowsFixed) = (dropRowsFixed t >>= dropColumns cols) := by
  refine ⟨?_, by decide, ?_⟩
  · intro npc df
    simp [data_prep, dataPrepSteps, applyStep, List.foldlM, bind_pure]
  · intro cols t hc hlen
    have hfind : List.find? (fun c => !(t.header.contains c)) cols = none := by
      rw [List.find?_eq_none]
      intro c hcc
      simpa using hc c hcc
    have h1 : dropColumns cols t = Except.ok
        (⟨t.header.filter (fun h => !(cols.contains h)),
          t.rows.map (fun r => r.filter (fun p => !(cols.contains p.1)))⟩ : Table) := by
      simp only [dropColumns, hfind]
    have h3 : dropRowsFixed t = Except.ok
        (⟨t.header, ((t.rows.eraseIdx 31).eraseIdx 17).eraseIdx 0⟩ : Table) := by
      simp only [dropRowsFixed]
      rw [if_pos hlen]
    rw [h1, exceptOkBind, h3, exceptOkBind]
    simp only [dropRowsFixed, dropColumns, hfind]
    rw [if_pos]
    · simp [eraseIdxMap]
    · simpa using hlen

/-- Witness for the commutation part of C4_amended on a concrete
column list and table. -/
theorem C4_amended_witness :
    (dropColumns ["URL"] tblAllGood >>= dropRowsFixed) =
      (dropRowsFixed tblAllGood >>= dropColumns ["URL"]) :=
  C4_amended.2.2 ["URL"] tblAllGood (by decide) (by decide)

/-- C9: the country-resolution join is left-outer — every row of the
prepared table is retained even when its country has no matching Name
in the reference table, and such a row gets a null Code; and for a raw
country "UK" the prepared country is "Great Britain" with the reference
table's code for Great Britain, while a country absent from the
reference table keeps a null Code. -/
theorem C9_left_outer_join :
    (∀ (npc : List NpcEntry) (t t' : Table), mergeNpc npc t = Except.ok t' →
      ∀ r ∈ t.rows,
        npc.filter (fun e => cellByName r "country" == Cell.str e.name) = [] →
        r ++ [("Code", Cell.na), ("Name", Cell.na)] ∈ t'.rows) ∧
    prepCell npcTest tblUK 0 "country" = some (Cell.str "Great Britain") ∧
    prepCell npcTest tblUK 0 "Code" = some (Cell.str "GBR") ∧
    prepCell npcTest tblUK 1 "country" = some (Cell.str "Atlantis") ∧
    prepCell npcTest tblUK 1 "Code" = some Cell.na := by
  refine ⟨?_, by decide, by decide, by decide, by decide⟩
  intro npc t t' h r hr hempty
  by_cases hc : t.header.contains "country"
  · have hreq : requireCol t "country" = Except.ok () := by
      simp only [requireCol]
      rw [if_pos hc]
    simp only [mergeNpc, hreq, exceptOkBind] at h
    simp only [pure, Except.pure] at h
    injection h with h2
    subst h2
    simp only [List.mem_flatMap]
    refine ⟨r, hr, ?_⟩
    simp [hempty]
  · have hreq : requireCol t "country" = Except.error (PrepError.keyError "country") := by
      simp only [requireCol]
      rw [if_neg hc]
    simp only [mergeNpc, hreq, exceptErrorBind] at h
    exact Except.noConfusion h

/-- Witness for the retention part of C9_left_outer_join on a concrete
one-row table whose country matches no reference entry. -/
theorem C9_left_outer_join_witness :
    [("country", Cell.str "Atlantis")] ++ [("Code", Cell.na), ("Name", Cell.na)] ∈
      (Table.mk ["country", "Code", "Name"]
        [[("country", Cell.str "Atlantis"), ("Code", Cell.na), ("Name", Cell.na)]]).rows :=
  C9_left_outer_join.1 npcTest tblTiny _ rfl [("country", Cell.str "Atlantis")]
    (by decide) (by decide)

/-- Eliminate a successful bind: both stages succeeded. -/
theorem okOfBind {X : Type} {Y : Type} (x : Except PrepError X) (g : X → Except PrepError Y)
    (y : Y) (h : (x >>= g) = Except.ok y) : ∃ v, x = Except.ok v ∧ g v = Except.ok y := by
  cases x with
  | ok v => exact ⟨v, rfl, by rwa [exceptOkBind] at h⟩
  | error e => rw [exceptErrorBind] at h; exact Except.noConfusion h

/-- A successful pure computation returns its argument. -/
theorem pureOk {X : Type} (x y : X) (h : (pure x : Except PrepError X) = Except.ok y) :
    x = y := by
  simpa [pure, Except.pure] using h

/-- A successful column-existence check followed by a continuation:
the column exists and the continuation succeeded. -/
theorem requireColBindOk {X : Type} (t : Table) (c : String) (g : Unit → Except PrepError X)
    (y : X) (h : (requireCol t c >>= g) = Except.ok y) :
    t.header.contains c = true ∧ g () = Except.ok y := by
  by_cases hc : t.header.contains c
  · have hr : requireCol t c = Except.ok () := by
      simp only [requireCol]
      rw [if_pos hc]
    rw [hr, exceptOkBind] at h
    exact ⟨hc, h⟩
  · have hr : requireCol t c = Except.error (PrepError.keyError c) := by
      simp only [requireCol]
      rw [if_neg hc]
    rw [hr, exceptErrorBind] at h
    exact Except.noConfusion h

/-- A successful `mapME` produces a list of the same length. -/
theorem mapME_length {a : Type} {b : Type} (f : a -> Except PrepError b) :
    ∀ (l : List a) (l' : List b), mapME f l = Except.ok l' → l'.length = l.length := by
  intro l
  induction l with
  | nil =>
    intro l' h
    simp only [mapME] at h
    injection h with h
    rw [← h]
    rfl
  | cons x xs ih =>
    intro l' h
    simp only [mapME] at h
    obtain ⟨y, _, h⟩ := okOfBind _ _ _ h
    obtain ⟨ys, hys, h⟩ := okOfBind _ _ _ h
    rw [← pureOk _ _ h]
    simp [ih ys hys]

/-- A successful `dropColumns` keeps the number of rows. -/
theorem dropColumns_length (cols : List String) (t t' : Table)
    (h : dropColumns cols t = Except.ok t') : t'.rows.length = t.rows.length := by
  simp only [dropColumns] at h
  cases hf : cols.find? (fun c => !(t.header.contains c)) with
  | some c =>
    simp only [hf] at h
    exact Except.noConfusion h
  | none =>
    simp only [hf] at h
    injection h with h
    rw [← h]
    simp

/-- A successful `dropRowsFixed` implies at least 32 rows and removes
exactly three. -/
theorem dropRowsFixed_length (t t' : Table) (h : dropRowsFixed t = Except.ok t') :
    31 < t.rows.length ∧ t'.rows.length = t.rows.length - 3 := by
  simp only [dropRowsFixed] at h
  by_cases hl : 31 < t.rows.length
  · rw [if_pos hl] at h
    injection h with h
    refine ⟨hl, ?_⟩
    rw [← h]
    have h31 : (t.rows.eraseIdx 31).length = t.rows.length - 1 :=
      List.length_eraseIdx_of_lt hl
    have h17 : ((t.rows.eraseIdx 31).eraseIdx 17).length = t.rows.length - 2 := by
      rw [List.length_eraseIdx_of_lt (by rw [h31]; omega), h31]
      omega
    show (((t.rows.eraseIdx 31).eraseIdx 17).eraseIdx 0).length = t.rows.length - 3
    rw [List.length_eraseIdx_of_lt (by rw [h17]; omega), h17]
    omega
  · rw [if_neg hl] at h
    exact Except.noConfusion h

/-- A successful `mapCol` keeps the number of rows. -/
theorem mapCol_length (c : String) (f : Cell → Cell) (t t' : Table)
    (h : mapCol c f t = Except.ok t') : t'.rows.length = t.rows.length := by
  simp only [mapCol] at h
  obtain ⟨-, h⟩ := requireColBindOk _ _ _ _ h
  rw [← pureOk _ _ h]
  simp

/-- A successful `mapColM` keeps the number of rows. -/
theorem mapColM_length (c : String) (f : Cell → Except PrepError Cell) (t t' : Table)
    (h : mapColM c f t = Except.ok t') : t'.rows.length = t.rows.length := by
  simp only [mapColM] at h
  obtain ⟨-, h⟩ := requireColBindOk _ _ _ _ h
  obtain ⟨rows, hrows, h⟩ := okOfBind _ _ _ h
  rw [← pureOk _ _ h]
  exact mapME_length _ _ _ hrows

/-- A fold of row-count-preserving steps preserves the row count. -/
theorem foldlM_length (g : Table → String → Except PrepError Table)
    (hg : ∀ c t t', g t c = Except.ok t' → t'.rows.length = t.rows.length) :
    ∀ (cols : List String) (t t' : Table),
      cols.foldlM g t = Except.ok t' → t'.rows.length = t.rows.length := by
  intro cols
  induction cols with
  | nil =>
    intro t t' h
    simp only [List.foldlM] at h
    rw [← pureOk _ _ h]
  | cons c cols ih =>
    intro t t' h
    simp only [List.foldlM] at h
    obtain ⟨t2, hg2, h⟩ := okOfBind _ _ _ h
    rw [ih t2 t' h, hg c t t2 hg2]

/-- A successful `castIntCols` keeps the number of rows. -/
theorem castIntCols_length (cols : List String) (t t' : Table)
    (h : castIntCols cols t = Except.ok t') : t'.rows.length = t.rows.length := by
  simp only [castIntCols] at h
  cases hf : cols.find? (fun c => !(t.header.contains c)) with
  | some c =>
    simp only [hf] at h
    exact Except.noConfusion h
  | none =>
    simp only [hf] at h
    exact foldlM_length _ (fun c => mapColM_length c castInt64Cell) cols t t' h

/-- A successful `astypeStrCols` keeps the number of rows. -/
theorem astypeStrCols_length (cols : List String) (t t' : Table)
    (h : astypeStrCols cols t = Except.ok t') : t'.rows.length = t.rows.length := by
  simp only [astypeStrCols] at h
  cases hf : cols.find? (fun c => !(t.header.contains c)) with
  | some c =>
    simp only [hf] at h
    exact Except.noConfusion h
  | none =>
    simp only [hf] at h
    exact foldlM_length _ (fun c => mapCol_length c astypeStringCell) cols t t' h

/-- A successful `insertDuration` keeps the number of rows. -/
theorem insertDuration_length (t t' : Table)
    (h : insertDuration t = Except.ok t') : t'.rows.length = t.rows.length := by
  simp only [insertDuration] at h
  obtain ⟨-, h⟩ := requireColBindOk _ _ _ _ h
  obtain ⟨-, h⟩ := requireColBindOk _ _ _ _ h
  obtain ⟨vals, hvals, h⟩ := okOfBind _ _ _ h
  obtain ⟨j, -, h⟩ := okOfBind _ _ _ h
  by_cases hd : t.header.contains "duration"
  · rw [if_pos hd] at h
    exact Except.noConfusion h
  · rw [if_neg hd] at h
    rw [← pureOk _ _ h]
    simp [List.length_zip, mapME_length _ _ _ hvals]

/-- A flat map whose pieces all have one element preserves length. -/
theorem flatMapLenOne {a : Type} {b : Type} (f : a → List b) :
    ∀ (l : List a), (∀ x ∈ l, (f x).length = 1) → (l.flatMap f).length = l.length := by
  intro l
  induction l with
  | nil => intro _; rfl
  | cons x xs ih =>
    intro h
    simp only [List.flatMap_cons, List.length_append, h x (List.mem_cons_self x xs),
      ih (fun y hy => h y (List.mem_cons_of_mem x hy)), List.length_cons]
    omega

/-- When the reference table's names are pairwise distinct, any key
matches at most one reference entry. -/
theorem nodupNameFilterLen (npc : List NpcEntry) (hn : (npc.map NpcEntry.name).Nodup)
    (key : Cell) : (npc.filter (fun e => key == Cell.str e.name)).length ≤ 1 := by
  induction npc with
  | nil => simp
  | cons e rest ih =>
    simp only [List.map_cons, List.nodup_cons] at hn
    by_cases hk : key == Cell.str e.name
    · have hkey : key = Cell.str e.name := by simpa using hk
      have hrest : rest.filter (fun x => key == Cell.str x.name) = [] := by
        rw [List.filter_eq_nil_iff]
        intro x hx hmatch
        have : e.name = x.name := by
          have := hkey ▸ hmatch
          simpa using this.symm
        exact hn.1 (this ▸ List.mem_map_of_mem NpcEntry.name hx)
      simp [List.filter_cons, hk, hrest]
    · simp only [List.filter_cons]
      rw [if_neg (by simpa using hk)]
      exact ih hn.2

/-- A successful left merge against a reference table with pairwise
distinct names keeps the number of rows. -/
theorem mergeNpc_length (npc : List NpcEntry) (t t' : Table)
    (hn : (npc.map NpcEntry.name).Nodup)
    (h : mergeNpc npc t = Except.ok t') : t'.rows.length = t.rows.length := by
  simp only [mergeNpc] at h
  obtain ⟨-, h⟩ := requireColBindOk _ _ _ _ h
  rw [← pureOk _ _ h]
  show (t.rows.flatMap _).length = t.rows.length
  apply flatMapLenOne
  intro r _
  by_cases he : (npc.filter (fun e => cellByName r "country" == Cell.str e.name)).isEmpty
  · simp [he]
  · simp [he, List.length_map]
    have h1 := nodupNameFilterLen npc hn (cellByName r "country")
    have h2 : npc.filter (fun e => cellByName r "country" == Cell.str e.name) ≠ [] := by
      intro hnil
      rw [hnil] at he
      simp at he
    have h3 := List.length_pos.mpr h2
    omega

/-- C5: whenever the pipeline succeeds on a raw table (success forces
at least 32 rows and all cells parseable) and the reference table has
pairwise distinct names (it is a code lookup table), the prepared table
has exactly three fewer rows than the raw table. -/
theorem C5_row_count (npc : List NpcEntry) (t : Table) (n : Nat)
    (hn : (npc.map NpcEntry.name).Nodup)
    (h : prepRowCount npc t = some n) :
    32 ≤ t.rows.length ∧ n = t.rows.length - 3 := by
  simp only [prepRowCount] at h
  cases hd : data_prep npc t with
  | error e =>
    rw [hd] at h
    exact Option.noConfusion h
  | ok t' =>
    rw [hd] at h
    injection h with h
    subst h
    simp only [data_prep] at hd
    obtain ⟨t1, h1, hd⟩ := okOfBind _ _ _ hd
    obtain ⟨t2, h2, hd⟩ := okOfBind _ _ _ hd
    obtain ⟨t3, h3, hd⟩ := okOfBind _ _ _ hd
    obtain ⟨t4, h4, hd⟩ := okOfBind _ _ _ hd
    obtain ⟨t5, h5, hd⟩ := okOfBind _ _ _ hd
    obtain ⟨t6, h6, hd⟩ := okOfBind _ _ _ hd
    obtain ⟨t7, h7, hd⟩ := okOfBind _ _ _ hd
    obtain ⟨t8, h8, hd⟩ := okOfBind _ _ _ hd
    obtain ⟨t9, h9, hd⟩ := okOfBind _ _ _ hd
    obtain ⟨t10, h10, hd⟩ := okOfBind _ _ _ hd
    obtain ⟨t11, h11, hd⟩ := okOfBind _ _ _ hd
    have l1 := dropColumns_length _ _ _ h1
    have l2 := dropRowsFixed_length _ _ h2
    have l3 := mapCol_length _ _ _ _ h3
    have l4 := mapCol_length _ _ _ _ h4
    have l5 := castIntCols_length _ _ _ h5
    have l6 := mapColM_length _ _ _ _ h6
    have l7 := mapColM_length _ _ _ _ h7
    have l8 := astypeStrCols_length _ _ _ h8
    have l9 := insertDuration_length _ _ h9
    have l10 := mapCol_length _ _ _ _ h10
    have l11 := mergeNpc_length _ _ _ hn h11
    have l12 := dropColumns_length _ _ _ hd
    omega

/-- Witness for C5_row_count on the concrete fully parseable 32-row
table: the prepared table has 29 rows. -/
theorem C5_row_count_witness :
    32 ≤ tblAllGood.rows.length ∧ 29 = tblAllGood.rows.length - 3 :=
  C5_row_count npcTest tblAllGood 29 (by decide) (by decide)

/-- The cell of a non-empty row in column x: the head if it is that
column, else look in the tail. -/
theorem cellByName_cons (p : String × Cell) (r : Row) (x : String) :
    cellByName (p :: r) x = if p.1 = x then p.2 else cellByName r x := by
  simp only [cellByName]
  by_cases h : p.1 = x
  · rw [List.find?_cons_of_pos _ (by simpa using h), if_pos h]
  · rw [List.find?_cons_of_neg _ (by simpa using h), if_neg h]

/-- The per-pair column update keeps the column name. -/
theorem updPair_fst (c : String) (f : Cell → Cell) (p : String × Cell) :
    (updPair c f p).1 = p.1 := by
  simp only [updPair]
  split <;> rfl

/-- Updating column c does not change the cell held in a different
column x. -/
theorem cellByName_updPair (c x : String) (hx : x ≠ c) (f : Cell → Cell) (r : Row) :
    cellByName (r.map (updPair c f)) x = cellByName r x := by
  induction r with
  | nil => rfl
  | cons p r ih =>
    rw [List.map_cons, cellByName_cons, cellByName_cons, updPair_fst]
    by_cases hp : p.1 = x
    · rw [if_pos hp, if_pos hp]
      simp only [updPair]
      rw [if_neg (by rw [hp]; exact hx)]
    · rw [if_neg hp, if_neg hp, ih]

/-- Appending pairs of other columns does not change the cell held in
column x. -/
theorem cellByName_append (r s : Row) (x : String)
    (hs : s.find? (fun p => p.1 == x) = none) :
    cellByName (r ++ s) x = cellByName r x := by
  simp only [cellByName, List.find?_append, hs, Option.or_none]

/-- Filtering out pairs of other columns does not change the cell held
in a kept column x. -/
theorem cellByName_filter (r : Row) (q : String → Bool) (x : String) (hq : q x = true) :
    cellByName (r.filter (fun p => q p.1)) x = cellByName r x := by
  induction r with
  | nil => rfl
  | cons p r ih =>
    by_cases hqp : q p.1
    · rw [List.filter_cons_of_pos (by simpa using hqp), cellByName_cons, cellByName_cons, ih]
    · rw [List.filter_cons_of_neg (by simpa using hqp), cellByName_cons, ih,
        if_neg (fun hpx => hqp (by rw [hpx]; exact hq))]

/-- Inserting a pair of another column does not change the cell held in
column x. -/
theorem cellByName_insertIdx_ne (x : String) (v : String × Cell) (hv : v.1 ≠ x) :
    ∀ (r : Row) (k : Nat), cellByName (r.insertIdx k v) x = cellByName r x
  | _, 0 => by rw [List.insertIdx_zero, cellByName_cons, if_neg hv]
  | [], _ + 1 => by rw [List.insertIdx_succ_nil]
  | p :: r, k + 1 => by
    rw [List.insertIdx_succ_cons, cellByName_cons, cellByName_cons,
      cellByName_insertIdx_ne x v hv r k]

/-- Inserting a pair of a column the row does not yet have, within
bounds, makes that pair's cell the one held in that column. -/
theorem cellByName_insertIdx_self (name : String) (v : Cell) :
    ∀ (r : Row) (k : Nat), k ≤ r.length → (∀ p ∈ r, p.1 ≠ name) →
      cellByName (r.insertIdx k (name, v)) name = v
  | _, 0, _, _ => by rw [List.insertIdx_zero, cellByName_cons, if_pos rfl]
  | [], k + 1, hk, _ => (Nat.not_succ_le_zero k hk).elim
  | p :: r, k + 1, hk, hall => by
    rw [List.insertIdx_succ_cons, cellByName_cons,
      if_neg (hall p (List.mem_cons_self p r)),
      cellByName_insertIdx_self name v r k (Nat.le_of_succ_le_succ hk)
        (fun q hq => hall q (List.mem_cons_of_mem p hq))]

/-- A successful duration computation satisfies the duration relation. -/
theorem durRel_of_durationCell (s e v : Cell) (h : durationCell s e = Except.ok v) :
    durRel s e v := by
  cases s <;> cases e <;>
    simp only [durationCell] at h <;>
    first
      | exact Except.noConfusion h
      | (injection h with h; subst h; simp [durRel])

/-- A successful `mapME` relates input and output pointwise. -/
theorem mapME_forall₂ {a : Type} {b : Type} (f : a -> Except PrepError b) :
    ∀ (l : List a) (l' : List b), mapME f l = Except.ok l' →
      List.Forall₂ (fun x y => f x = Except.ok y) l l' := by
  intro l
  induction l with
  | nil =>
    intro l' h
    simp only [mapME] at h
    injection h with h
    rw [← h]
    exact List.Forall₂.nil
  | cons x xs ih =>
    intro l' h
    simp only [mapME] at h
    obtain ⟨y, hy, h⟩ := okOfBind _ _ _ h
    obtain ⟨ys, hys, h⟩ := okOfBind _ _ _ h
    rw [← pureOk _ _ h]
    exact List.Forall₂.cons hy (ih ys hys)

/-- Every output element of a successful `mapME` comes from an input
element. -/
theorem mapME_mem {a : Type} {b : Type} (f : a -> Except PrepError b) :
    ∀ (l : List a) (l' : List b), mapME f l = Except.ok l' →
      ∀ y ∈ l', ∃ x ∈ l, f x = Except.ok y := by
  intro l
  induction l with
  | nil =>
    intro l' h y hy
    simp only [mapME] at h
    injection h with h
    rw [← h] at hy
    exact absurd hy (List.not_mem_nil y)
  | cons x xs ih =>
    intro l' h y hy
    simp only [mapME] at h
    obtain ⟨z, hz, h⟩ := okOfBind _ _ _ h
    obtain ⟨zs, hzs, h⟩ := okOfBind _ _ _ h
    rw [← pureOk _ _ h] at hy
    cases List.mem_cons.mp hy with
    | inl hyz => exact ⟨x, List.mem_cons_self x xs, hyz ▸ hz⟩
    | inr hyzs =>
      obtain ⟨w, hw, hfw⟩ := ih zs hzs y hyzs
      exact ⟨w, List.mem_cons_of_mem x hw, hfw⟩

/-- Name sequence of a name-filtered row. -/
theorem map_fst_filter (q : String → Bool) (r : Row) :
    (r.filter (fun p => q p.1)).map Prod.fst = (r.map Prod.fst).filter q := by
  induction r with
  | nil => rfl
  | cons p r ih =>
    by_cases hq : q p.1
    · rw [List.filter_cons_of_pos (by simpa using hq), List.map_cons, List.map_cons,
        List.filter_cons_of_pos (by simpa using hq), ih]
    · rw [List.filter_cons_of_neg (by simpa using hq), List.map_cons,
        List.filter_cons_of_neg (by simpa using hq), ih]

/-- Name sequence of a column update. -/
theorem map_fst_updPair (c : String) (f : Cell → Cell) (r : Row) :
    (r.map (updPair c f)).map Prod.fst = r.map Prod.fst := by
  induction r with
  | nil => rfl
  | cons p r ih => simp [updPair_fst, ih]

/-- Name sequence of a fallible column update. -/
theorem map_fst_updPairM (c : String) (f : Cell → Except PrepError Cell) :
    ∀ (r r' : Row), mapME (updPairM c f) r = Except.ok r' →
      r'.map Prod.fst = r.map Prod.fst := by
  intro r
  induction r with
  | nil =>
    intro r' h
    simp only [mapME] at h
    injection h with h
    rw [← h]
  | cons p r ih =>
    intro r' h
    simp only [mapME] at h
    obtain ⟨q, hq, h⟩ := okOfBind _ _ _ h
    obtain ⟨qs, hqs, h⟩ := okOfBind _ _ _ h
    rw [← pureOk _ _ h]
    have hfst : q.1 = p.1 := by
      simp only [updPairM] at hq
      by_cases hc : p.1 = c
      · rw [if_pos hc] at hq
        cases hf : f p.2 with
        | ok v =>
          rw [hf] at hq
          injection hq with hq
          rw [← hq]
        | error e =>
          rw [hf] at hq
          exact Except.noConfusion hq
      · rw [if_neg hc] at hq
        injection hq with hq
        rw [← hq]
    simp [List.map_cons, hfst, ih qs hqs]

/-- Name sequence of a row insertion. -/
theorem map_fst_insertIdx (v : String × Cell) :
    ∀ (r : Row) (k : Nat), (r.insertIdx k v).map Prod.fst = (r.map Prod.fst).insertIdx k v.1
  | _, 0 => by simp
  | [], _ + 1 => by simp
  | p :: r, k + 1 => by
    rw [List.insertIdx_succ_cons, List.map_cons, map_fst_insertIdx v r k, List.map_cons,
      List.insertIdx_succ_cons]

/-- Dropping columns preserves well-formedness. -/
theorem dropColumns_WF (cols : List String) (t t' : Table)
    (h : dropColumns cols t = Except.ok t') (hwf : t.WF) : t'.WF := by
  simp only [dropColumns] at h
  cases hf : cols.find? (fun c => !(t.header.contains c)) with
  | some c =>
    simp only [hf] at h
    exact Except.noConfusion h
  | none =>
    simp only [hf] at h
    injection h with h
    rw [← h]
    intro r' hr'
    obtain ⟨r, hr, hmap⟩ := List.mem_map.mp hr'
    rw [← hmap, map_fst_filter (fun x => !(cols.contains x)) r, hwf r hr]

/-- Dropping the fixed rows preserves well-formedness. -/
theorem dropRowsFixed_WF (t t' : Table)
    (h : dropRowsFixed t = Except.ok t') (hwf : t.WF) : t'.WF := by
  simp only [dropRowsFixed] at h
  by_cases hl : 31 < t.rows.length
  · rw [if_pos hl] at h
    injection h with h
    rw [← h]
    intro r hr
    exact hwf r ((List.eraseIdx_sublist _ 31).subset
      ((List.eraseIdx_sublist _ 17).subset ((List.eraseIdx_sublist _ 0).subset hr)))
  · rw [if_neg hl] at h
    exact Except.noConfusion h

/-- An infallible column update preserves well-formedness. -/
theorem mapCol_WF (c : String) (f : Cell → Cell) (t t' : Table)
    (h : mapCol c f t = Except.ok t') (hwf : t.WF) : t'.WF := by
  simp only [mapCol] at h
  obtain ⟨-, h⟩ := requireColBindOk _ _ _ _ h
  rw [← pureOk _ _ h]
  intro r' hr'
  obtain ⟨r, hr, hmap⟩ := List.mem_map.mp hr'
  rw [← hmap, map_fst_updPair, hwf r hr]

/-- A fallible column update preserves well-formedness. -/
theorem mapColM_WF (c : String) (f : Cell → Except PrepError Cell) (t t' : Table)
    (h : mapColM c f t = Except.ok t') (hwf : t.WF) : t'.WF := by
  simp only [mapColM] at h
  obtain ⟨-, h⟩ := requireColBindOk _ _ _ _ h
  obtain ⟨rows, hrows, h⟩ := okOfBind _ _ _ h
  rw [← pureOk _ _ h]
  intro r' hr'
  obtain ⟨r, hr, hfr⟩ := mapME_mem _ _ _ hrows r' hr'
  rw [map_fst_updPairM c f r r' hfr, hwf r hr]

/-- A fold of well-formedness-preserving steps preserves
well-formedness. -/
theorem foldlM_WF (g : Table → String → Except PrepError Table)
    (hg : ∀ c t t', g t c = Except.ok t' → t.WF → t'.WF) :
    ∀ (cols : List String) (t t' : Table),
      cols.foldlM g t = Except.ok t' → t.WF → t'.WF := by
  intro cols
  induction cols with
  | nil =>
    intro t t' h hwf
    simp only [List.foldlM] at h
    rw [← pureOk _ _ h]
    exact hwf
  | cons c cols ih =>
    intro t t' h hwf
    simp only [List.foldlM] at h
    obtain ⟨t2, hg2, h⟩ := okOfBind _ _ _ h
    exact ih t2 t' h (hg c t t2 hg2 hwf)

/-- The Int64 cast of the numeric columns preserves well-formedness. -/
theorem castIntCols_WF (cols : List String) (t t' : Table)
    (h : castIntCols cols t = Except.ok t') (hwf : t.WF) : t'.WF := by
  simp only [castIntCols] at h
  cases hf : cols.find? (fun c => !(t.header.contains c)) with
  | some c =>
    simp only [hf] at h
    exact Except.noConfusion h
  | none =>
    simp only [hf] at h
    exact foldlM_WF _ (fun c => mapColM_WF c castInt64Cell) cols t t' h hwf

/-- The string typing of the text columns preserves well-formedness. -/
theorem astypeStrCols_WF (cols : List String) (t t' : Table)
    (h : astypeStrCols cols t = Except.ok t') (hwf : t.WF) : t'.WF := by
  simp only [astypeStrCols] at h
  cases hf : cols.find? (fun c => !(t.header.contains c)) with
  | some c =>
    simp only [hf] at h
    exact Except.noConfusion h
  | none =>
    simp only [hf] at h
    exact foldlM_WF _ (fun c => mapCol_WF c astypeStringCell) cols t t' h hwf

/-- Central invariant: on any successful run from a well-formed raw
table, every prepared row's duration cell stands in the duration
relation to its start and end cells. -/
theorem durationInvariant (npc : List NpcEntry) (t t' : Table) (hwf : t.WF)
    (h : data_prep npc t = Except.ok t') :
    ∀ r ∈ t'.rows,
      durRel (cellByName r "start") (cellByName r "end") (cellByName r "duration") := by
  simp only [data_prep] at h
  obtain ⟨t1, h1, h⟩ := okOfBind _ _ _ h
  obtain ⟨t2, h2, h⟩ := okOfBind _ _ _ h
  obtain ⟨t3, h3, h⟩ := okOfBind _ _ _ h
  obtain ⟨t4, h4, h⟩ := okOfBind _ _ _ h
  obtain ⟨t5, h5, h⟩ := okOfBind _ _ _ h
  obtain ⟨t6, h6, h⟩ := okOfBind _ _ _ h
  obtain ⟨t7, h7, h⟩ := okOfBind _ _ _ h
  obtain ⟨t8, h8, h⟩ := okOfBind _ _ _ h
  obtain ⟨t9, h9, h⟩ := okOfBind _ _ _ h
  obtain ⟨t10, h10, h⟩ := okOfBind _ _ _ h
  obtain ⟨t11, h11, h⟩ := okOfBind _ _ _ h
  have wf1 := dropColumns_WF _ _ _ h1 hwf
  have wf2 := dropRowsFixed_WF _ _ h2 wf1
  have wf3 := mapCol_WF _ _ _ _ h3 wf2
  have wf4 := mapCol_WF _ _ _ _ h4 wf3
  have wf5 := castIntCols_WF _ _ _ h5 wf4
  have wf6 := mapColM_WF _ _ _ _ h6 wf5
  have wf7 := mapColM_WF _ _ _ _ h7 wf6
  have wf8 := astypeStrCols_WF _ _ _ h8 wf7
  simp only [insertDuration] at h9
  obtain ⟨-, h9⟩ := requireColBindOk _ _ _ _ h9
  obtain ⟨-, h9⟩ := requireColBindOk _ _ _ _ h9
  obtain ⟨vals, hvals, h9⟩ := okOfBind _ _ _ h9
  obtain ⟨j, hj, h9⟩ := okOfBind _ _ _ h9
  by_cases hdur : t8.header.contains "duration"
  · rw [if_pos hdur] at h9
    exact Except.noConfusion h9
  · rw [if_neg hdur] at h9
    have hj2 : List.findIdx? (fun x => x == "end") t8.header = some j := by
      simp only [getLoc] at hj
      cases hfi : List.findIdx? (fun x => x == "end") t8.header with
      | some j2 =>
        rw [hfi] at hj
        injection hj with hj
        rw [← hj]
      | none =>
        rw [hfi] at hj
        exact Except.noConfusion hj
    obtain ⟨hjlt, -, -⟩ := List.findIdx?_eq_some_iff_getElem.mp hj2
    have inv9 : ∀ r ∈ t9.rows,
        durRel (cellByName r "start") (cellByName r "end") (cellByName r "duration") := by
      intro r9 hr9
      rw [← pureOk _ _ h9] at hr9
      obtain ⟨pr, hpr, hmap⟩ := List.mem_map.mp hr9
      obtain ⟨hrmem, -⟩ := List.of_mem_zip ((Prod.mk.eta (p := pr)) ▸ hpr)
      have hdc : durationCell (cellByName pr.1 "start") (cellByName pr.1 "end") =
          Except.ok pr.2 :=
        List.forall₂_zip (mapME_forall₂ _ _ _ hvals) ((Prod.mk.eta (p := pr)) ▸ hpr)
      have hwfr : pr.1.map Prod.fst = t8.header := wf8 pr.1 hrmem
      have hlen : j + 1 ≤ pr.1.length := by
        have hl : pr.1.length = t8.header.length := by
          rw [← hwfr, List.length_map]
        omega
      have hnotdur : ∀ p ∈ pr.1, p.1 ≠ "duration" := by
        intro p hp hcon
        have hmem : "duration" ∈ t8.header := by
          rw [← hwfr]
          exact hcon ▸ List.mem_map_of_mem Prod.fst hp
        exact hdur (by simpa using hmem)
      rw [← hmap,
        cellByName_insertIdx_ne "start" ("duration", pr.2) (by simp) pr.1 (j + 1),
        cellByName_insertIdx_ne "end" ("duration", pr.2) (by simp) pr.1 (j + 1),
        cellByName_insertIdx_self "duration" pr.2 pr.1 (j + 1) hlen hnotdur]
      exact durRel_of_durationCell _ _ _ hdc
    have inv10 : ∀ r ∈ t10.rows,
        durRel (cellByName r "start") (cellByName r "end") (cellByName r "duration") := by
      intro r hr
      simp only [mapCol] at h10
      obtain ⟨-, h10⟩ := requireColBindOk _ _ _ _ h10
      rw [← pureOk _ _ h10] at hr
      obtain ⟨r9, hr9, hmap⟩ := List.mem_map.mp hr
      rw [← hmap,
        cellByName_updPair "country" "start" (by decide) (replaceCell replacement_names) r9,
        cellByName_updPair "country" "end" (by decide) (replaceCell replacement_names) r9,
        cellByName_updPair "country" "duration" (by decide) (replaceCell replacement_names) r9]
      exact inv9 r9 hr9
    have inv11 : ∀ r ∈ t11.rows,
        durRel (cellByName r "start") (cellByName r "end") (cellByName r "duration") := by
      intro r hr
      simp only [mergeNpc] at h11
      obtain ⟨-, h11⟩ := requireColBindOk _ _ _ _ h11
      rw [← pureOk _ _ h11] at hr
      obtain ⟨r10, hr10, hfr⟩ := List.mem_flatMap.mp hr
      by_cases he : (npc.filter (fun e => cellByName r10 "country" == Cell.str e.name)).isEmpty
      · simp only [he, if_true, List.mem_singleton] at hfr
        subst hfr
        rw [cellByName_append r10 [("Code", Cell.na), ("Name", Cell.na)] "start" rfl,
          cellByName_append r10 [("Code", Cell.na), ("Name", Cell.na)] "end" rfl,
          cellByName_append r10 [("Code", Cell.na), ("Name", Cell.na)] "duration" rfl]
        exact inv10 r10 hr10
      · simp [he] at hfr
        obtain ⟨e, -, hre⟩ := hfr
        rw [← hre,
          cellByName_append r10 [("Code", Cell.str e.code), ("Name", Cell.str e.name)] "start" rfl,
          cellByName_append r10 [("Code", Cell.str e.code), ("Name", Cell.str e.name)] "end" rfl,
          cellByName_append r10 [("Code", Cell.str e.code), ("Name", Cell.str e.name)] "duration" rfl]
        exact inv10 r10 hr10
    intro r' hr'
    simp only [dropColumns] at h
    cases hf : List.find? (fun c => !(t11.header.contains c)) ["Name"] with
    | some c =>
      simp only [hf] at h
      exact Except.noConfusion h
    | none =>
      simp only [hf] at h
      injection h with h
      rw [← h] at hr'
      obtain ⟨r11, hr11, hmap⟩ := List.mem_map.mp hr'
      rw [← hmap,
        cellByName_filter r11 (fun x => !(List.contains ["Name"] x)) "start" (by decide),
        cellByName_filter r11 (fun x => !(List.contains ["Name"] x)) "end" (by decide),
        cellByName_filter r11 (fun x => !(List.contains ["Name"] x)) "duration" (by decide)]
      exact inv11 r11 hr11

/-- A found index splits the list: a prefix without matches, then the
matched element. -/
theorem headerShape : ∀ (l : List String) (j : Nat),
    List.findIdx? (fun x => x == "end") l = some j →
    ∃ A B, l = A ++ "end" :: B ∧ A.length = j ∧ "end" ∉ A
  | [], _, h => by simp at h
  | x :: l, j, h => by
    rw [List.findIdx?_cons] at h
    by_cases hx : x == "end"
    · rw [if_pos hx] at h
      injection h with h
      exact ⟨[], l, by simp [(by simpa using hx : x = "end")], by simp [← h], by simp⟩
    · rw [if_neg hx] at h
      rw [List.findIdx?_start_succ] at h
      cases hf : List.findIdx? (fun x => x == "end") l with
      | none =>
        rw [hf] at h
        simp at h
      | some k =>
        rw [hf] at h
        obtain ⟨A, B, hl, hA, hmem⟩ := headerShape l k hf
        refine ⟨x :: A, B, by simp [hl], ?_, ?_⟩
        · simp only [Option.map_some'] at h
          injection h with h
          simp [hA, h]
        · simp only [List.mem_cons, not_or]
          exact ⟨fun hc => hx (by simp [hc]), hmem⟩

/-- Inserting directly after the splitting element. -/
theorem insertIdx_after (d : String) : ∀ (A : List String) (x : String) (B : List String),
    (A ++ x :: B).insertIdx (A.length + 1) d = A ++ x :: d :: B
  | [], x, B => by simp
  | a :: A, x, B => by
    simp only [List.cons_append, List.length_cons]
    rw [List.insertIdx_succ_cons, insertIdx_after d A x B]

/-- The first occurrence of the column end in a header of the split
shape is right where the split is. -/
theorem findIdxAppendEnd : ∀ (A : List String), "end" ∉ A → ∀ (rest : List String),
    List.findIdx? (fun x => x == "end") (A ++ "end" :: rest) = some A.length
  | [], _, rest => by simp
  | a :: A, hmem, rest => by
    simp only [List.mem_cons, not_or] at hmem
    rw [List.cons_append, List.findIdx?_cons,
      if_neg (fun hc => hmem.1 (by simpa using hc : a = "end").symm),
      List.findIdx?_start_succ, findIdxAppendEnd A hmem.2 rest]
    rfl

/-- The header of an infallible column update is unchanged. -/
theorem mapCol_header (c : String) (f : Cell → Cell) (t t' : Table)
    (h : mapCol c f t = Except.ok t') : t'.header = t.header := by
  simp only [mapCol] at h
  obtain ⟨-, h⟩ := requireColBindOk _ _ _ _ h
  rw [← pureOk _ _ h]

/-- The left merge appends the reference columns Code and Name to the
header. -/
theorem mergeNpc_header (npc : List NpcEntry) (t t' : Table)
    (h : mergeNpc npc t = Except.ok t') : t'.header = t.header ++ ["Code", "Name"] := by
  simp only [mergeNpc] at h
  obtain ⟨-, h⟩ := requireColBindOk _ _ _ _ h
  rw [← pureOk _ _ h]

/-- On every successful run, the prepared header is a prefix without
an end column, then end immediately followed by duration. -/
theorem data_prep_header_shape (npc : List NpcEntry) (t t' : Table)
    (h : data_prep npc t = Except.ok t') :
    ∃ A B, t'.header = A ++ "end" :: "duration" :: B ∧ "end" ∉ A := by
  simp only [data_prep] at h
  obtain ⟨t1, -, h⟩ := okOfBind _ _ _ h
  obtain ⟨t2, -, h⟩ := okOfBind _ _ _ h
  obtain ⟨t3, -, h⟩ := okOfBind _ _ _ h
  obtain ⟨t4, -, h⟩ := okOfBind _ _ _ h
  obtain ⟨t5, -, h⟩ := okOfBind _ _ _ h
  obtain ⟨t6, -, h⟩ := okOfBind _ _ _ h
  obtain ⟨t7, -, h⟩ := okOfBind _ _ _ h
  obtain ⟨t8, -, h⟩ := okOfBind _ _ _ h
  obtain ⟨t9, h9, h⟩ := okOfBind _ _ _ h
  obtain ⟨t10, h10, h⟩ := okOfBind _ _ _ h
  obtain ⟨t11, h11, h⟩ := okOfBind _ _ _ h
  simp only [insertDuration] at h9
  obtain ⟨-, h9⟩ := requireColBindOk _ _ _ _ h9
  obtain ⟨-, h9⟩ := requireColBindOk _ _ _ _ h9
  obtain ⟨vals, -, h9⟩ := okOfBind _ _ _ h9
  obtain ⟨j, hj, h9⟩ := okOfBind _ _ _ h9
  by_cases hdur : t8.header.contains "duration"
  · rw [if_pos hdur] at h9
    exact Except.noConfusion h9
  · rw [if_neg hdur] at h9
    have hj2 : List.findIdx? (fun x => x == "end") t8.header = some j := by
      simp only [getLoc] at hj
      cases hfi : List.findIdx? (fun x => x == "end") t8.header with
      | some j2 =>
        rw [hfi] at hj
        injection hj with hj
        rw [← hj]
      | none =>
        rw [hfi] at hj
        exact Except.noConfusion hj
    obtain ⟨A, B, h8eq, hA, hmem⟩ := headerShape t8.header j hj2
    have h9hdr : t9.header = A ++ "end" :: "duration" :: B := by
      rw [← pureOk _ _ h9]
      show t8.header.insertIdx (j + 1) "duration" = A ++ "end" :: "duration" :: B
      rw [h8eq, ← hA, insertIdx_after]
    have h11hdr : t11.header = A ++ "end" :: "duration" :: (B ++ ["Code", "Name"]) := by
      rw [mergeNpc_header _ _ _ h11, mapCol_header _ _ _ _ h10, h9hdr]
      simp
    simp only [dropColumns] at h
    cases hf : List.find? (fun c => !(t11.header.contains c)) ["Name"] with
    | some c =>
      simp only [hf] at h
      exact Except.noConfusion h
    | none =>
      simp only [hf] at h
      injection h with h
      refine ⟨A.filter (fun x => !(List.contains ["Name"] x)),
        (B ++ ["Code", "Name"]).filter (fun x => !(List.contains ["Name"] x)), ?_, ?_⟩
      · rw [← h]
        show t11.header.filter (fun x => !(List.contains ["Name"] x)) = _
        rw [h11hdr, List.filter_append, List.filter_cons_of_pos (by decide),
          List.filter_cons_of_pos (by decide)]
      · intro hc
        exact hmem (List.mem_of_mem_filter hc)

/-- C7, counterexample: the pipeline succeeds on a valid table whose
surviving second row has start 02/07/2008 and end 01/07/2008, and that
prepared row's duration is −1, which is not ≥ 0. -/
theorem C7_counterexample :
    prepCell npcTest tblEndBeforeStart 0 "duration" = some (Cell.int (-1)) ∧
    ¬ ((0 : Int) ≤ -1) := by
  decide

/-- C7, amended: in every prepared row (of a well-formed raw table),
when both dates are present the duration is the well-defined integer
end − start — nonnegative exactly when start ≤ end, but negative when
end precedes start — and when either date is absent the duration is the
missing marker. -/
theorem C7_amended_duration (npc : List NpcEntry) (t : Table) (i : Nat)
    (sv ev dv : Cell) (hwf : t.WF)
    (hs : prepCell npc t i "start" = some sv)
    (he : prepCell npc t i "end" = some ev)
    (hd : prepCell npc t i "duration" = some dv) :
    (∀ a b, sv = Cell.date a → ev = Cell.date b →
      dv = Cell.int (b - a) ∧ (0 ≤ b - a ↔ a ≤ b)) ∧
    (sv = Cell.na → dv = Cell.na) ∧ (ev = Cell.na → dv = Cell.na) := by
  simp only [prepCell] at hs he hd
  cases hdp : data_prep npc t with
  | error e =>
    simp only [hdp] at hs
    exact Option.noConfusion hs
  | ok t' =>
    simp only [hdp] at hs he hd
    cases hrow : t'.rows.get? i with
    | none =>
      rw [hrow] at hs
      exact Option.noConfusion hs
    | some r =>
      rw [hrow] at hs he hd
      simp only [Option.map_some'] at hs he hd
      injection hs with hs
      injection he with he
      injection hd with hd
      subst hs
      subst he
      subst hd
      obtain ⟨h1, h2, h3⟩ := durationInvariant npc t t' hwf hdp r (List.get?_mem hrow)
      exact ⟨fun a b ha hb => ⟨h1 a b ha hb, by omega⟩, h2, h3⟩

/-- Witness for C7_amended_duration at the concrete table whose second
surviving row has end before start: duration is −1 = end − start. -/
theorem C7_amended_duration_witness :
    (∀ a b, Cell.date (daysFromCivil 2008 7 2) = Cell.date a →
        Cell.date (daysFromCivil 2008 7 1) = Cell.date b →
        Cell.int (-1) = Cell.int (b - a) ∧ (0 ≤ b - a ↔ a ≤ b)) ∧
    (Cell.date (daysFromCivil 2008 7 2) = Cell.na → Cell.int (-1) = Cell.na) ∧
    (Cell.date (daysFromCivil 2008 7 1) = Cell.na → Cell.int (-1) = Cell.na) :=
  C7_amended_duration npcTest tblEndBeforeStart 0 _ _ _ (by decide)
    (by decide) (by decide) (by decide)

/-- C8: in every prepared row (of a well-formed raw table) with both
dates present, duration equals the whole-day difference end − start;
and in the prepared column order, duration sits immediately after the
first (and only) end column. -/
theorem C8_duration_eq_and_position (npc : List NpcEntry) (t t' : Table) (hwf : t.WF)
    (h : data_prep npc t = Except.ok t') :
    (∀ r ∈ t'.rows, ∀ a b, cellByName r "start" = Cell.date a →
        cellByName r "end" = Cell.date b → cellByName r "duration" = Cell.int (b - a)) ∧
    ∃ j, List.findIdx? (fun x => x == "end") t'.header = some j ∧
      t'.header[j + 1]? = some "duration" := by
  constructor
  · intro r hr a b ha hb
    exact (durationInvariant npc t t' hwf h r hr).1 a b ha hb
  · obtain ⟨A, B, heq, hA⟩ := data_prep_header_shape npc t t' h
    refine ⟨A.length, ?_, ?_⟩
    · rw [heq]
      exact findIdxAppendEnd A hA _
    · rw [heq, List.getElem?_append_right (by omega)]
      have hone : A.length + 1 - A.length = 1 := by omega
      rw [hone]
      simp

/-- Witness for C8_duration_eq_and_position on the concrete fully
parseable table and its computed prepared table. -/
theorem C8_duration_eq_and_position_witness :
    (∀ r ∈ tblAllGoodPrepared.rows, ∀ a b, cellByName r "start" = Cell.date a →
        cellByName r "end" = Cell.date b → cellByName r "duration" = Cell.int (b - a)) ∧
    ∃ j, List.findIdx? (fun x => x == "end") tblAllGoodPrepared.header = some j ∧
      tblAllGoodPrepared.header[j + 1]? = some "duration" :=
  C8_duration_eq_and_position npcTest tblAllGood tblAllGoodPrepared (by decide) (by rfl)

/-- A successful rebinding step leaves the caller's object unchanged
and advances only the local table. -/
theorem rebindOk (f : Table → Except PrepError Table) (fr fr' : CallFrame)
    (h : rebind f fr = Except.ok fr') :
    fr'.df = fr.df ∧ f fr.df_prepared = Except.ok fr'.df_prepared := by
  simp only [rebind] at h
  cases hf : f fr.df_prepared with
  | ok t =>
    rw [hf] at h
    injection h with h
    rw [← h]
    exact ⟨rfl, rfl⟩
  | error e =>
    rw [hf] at h
    exact Except.noConfusion h

/-- A successful in-place step mutates only the object the local
binding refers to; the caller's object is unchanged. -/
theorem inplaceOk (f : Table → Except PrepError Table) (fr fr' : CallFrame)
    (h : inplace f fr = Except.ok fr') :
    fr'.df = fr.df ∧ f fr.df_prepared = Except.ok fr'.df_prepared :=
  rebindOk f fr fr' h

/-- C10: `data_prep` never mutates its argument — in the call-frame
model, where every fresh-object call rebinds `df_prepared` and every
in-place pandas mutation targets the object `df_prepared` refers to
(a copy of the argument since line 47), the caller's table after the
call equals its value before the call, and the local result is exactly
the `data_prep` output. -/
theorem C10_no_mutation (npc : List NpcEntry) (df : Table) (fr : CallFrame)
    (h : data_prep_frame npc df = Except.ok fr) :
    fr.df = df ∧ data_prep npc df = Except.ok fr.df_prepared := by
  simp only [data_prep_frame] at h
  obtain ⟨t1, h1, h⟩ := okOfBind _ _ _ h
  obtain ⟨fr2, h2, h⟩ := okOfBind _ _ _ h
  obtain ⟨fr3, h3, h⟩ := okOfBind _ _ _ h
  obtain ⟨fr4, h4, h⟩ := okOfBind _ _ _ h
  obtain ⟨fr5, h5, h⟩ := okOfBind _ _ _ h
  obtain ⟨fr6, h6, h⟩ := okOfBind _ _ _ h
  obtain ⟨fr7, h7, h⟩ := okOfBind _ _ _ h
  obtain ⟨fr8, h8, h⟩ := okOfBind _ _ _ h
  obtain ⟨fr9, h9, h⟩ := okOfBind _ _ _ h
  obtain ⟨fr10, h10, h⟩ := okOfBind _ _ _ h
  obtain ⟨fr11, h11, h⟩ := okOfBind _ _ _ h
  obtain ⟨e2, g2⟩ := rebindOk _ _ _ h2
  obtain ⟨e3, g3⟩ := inplaceOk _ _ _ h3
  obtain ⟨e4, g4⟩ := inplaceOk _ _ _ h4
  obtain ⟨e5, g5⟩ := inplaceOk _ _ _ h5
  obtain ⟨e6, g6⟩ := inplaceOk _ _ _ h6
  obtain ⟨e7, g7⟩ := inplaceOk _ _ _ h7
  obtain ⟨e8, g8⟩ := inplaceOk _ _ _ h8
  obtain ⟨e9, g9⟩ := inplaceOk _ _ _ h9
  obtain ⟨e10, g10⟩ := inplaceOk _ _ _ h10
  obtain ⟨e11, g11⟩ := rebindOk _ _ _ h11
  obtain ⟨efin, gfin⟩ := rebindOk _ _ _ h
  constructor
  · rw [efin, e11, e10, e9, e8, e7, e6, e5, e4, e3, e2]
  · simp only [data_prep]
    rw [h1, exceptOkBind, g2, exceptOkBind, g3, exceptOkBind, g4, exceptOkBind,
      g5, exceptOkBind, g6, exceptOkBind, g7, exceptOkBind, g8, exceptOkBind,
      g9, exceptOkBind, g10, exceptOkBind, g11, exceptOkBind, gfin]

/-- Witness for C10_no_mutation on the concrete fully parseable table:
after the call the caller's table is unchanged and the local result is
the prepared table. -/
theorem C10_no_mutation_witness :
    (CallFrame.mk tblAllGood tblAllGoodPrepared).df = tblAllGood ∧
    data_prep npcTest tblAllGood =
      Except.ok (CallFrame.mk tblAllGood tblAllGoodPrepared).df_prepared :=
  C10_no_mutation npcTest tblAllGood (CallFrame.mk tblAllGood tblAllGoodPrepared) (by rfl)
